import Mathlib

/-!
Verification development for the live voice-narration and turn-interpretation
subsystem of the infinite-adventure-engine repository.

Part 1 embeds the pure matching stage of the Choice Interpreter
(src/services/geminiService.ts, interpretUserChoice, lines 306-319):
the raw model answer is trimmed, surrounding double quotes are removed,
the result is accepted when it is literally one of the choices or the
sentinel UNCLEAR, otherwise the first choice occurring as a literal
substring of the answer is accepted, otherwise UNCLEAR.

Part 2 embeds the Narration Orchestrator of
src/components/LiveNarrator.tsx as an explicit event-step machine: the
mutable refs of the component become fields of a `Config`, each async
suspension point becomes a pending `Item`, and each callback or promise
continuation becomes a case of a `step` function that also emits a list
of observable `Effect`s (host callbacks, resource starts and stops).
-/

/-- Prefix test on character lists: `p` is an initial segment of `s`. -/
def startsList : List Char → List Char → Bool
  | [], _ => true
  | _ :: _, [] => false
  | a :: as, b :: bs => a == b && startsList as bs

/-- Substring containment on character lists, scanning left to right.
Mirrors the JavaScript `String.prototype.includes`. -/
def containsSub (pat : List Char) : List Char → Bool
  | [] => startsList pat []
  | c :: rest => startsList pat (c :: rest) || containsSub pat rest

/-- `strIncludes s pat` models the JavaScript `s.includes(pat)`:
literal, case-sensitive containment. -/
def strIncludes (s pat : String) : Bool :=
  containsSub pat.data s.data

/-- Lowercasing, modelling `String.prototype.toLowerCase` (ASCII-faithful). -/
def lowerStr (s : String) : String :=
  String.mk (s.data.map Char.toLower)

/-- Whitespace trimming on both ends, modelling `String.prototype.trim`. -/
def strTrim (s : String) : String :=
  String.mk (((s.data.dropWhile Char.isWhitespace).reverse.dropWhile
    Char.isWhitespace).reverse)

/-- Concatenation of a list of strings, in order. -/
def joinAll : List String → String
  | [] => ""
  | a :: l => a ++ joinAll l

/-- Drop a single leading double quote, if present. -/
def dropLeadQuote : List Char → List Char
  | [] => []
  | c :: rest => if c = '"' then rest else c :: rest

/-- Drop a single trailing double quote, if present. -/
def dropTrailQuote (l : List Char) : List Char :=
  (dropLeadQuote l.reverse).reverse

/-- The quote-stripping in interpretUserChoice line 306:
`result.trim().replace(/^"|"$/g, '')` removes one leading and one
trailing double quote. -/
def stripQuotes (s : String) : String :=
  String.mk (dropTrailQuote (dropLeadQuote s.data))

/-- The matching stage of interpretUserChoice
(src/services/geminiService.ts lines 306-319).  The transcript, scene
text and language only shape the prompt sent to the model; the value
returned by the function is computed from the choice list and the raw
model answer alone, which is what this definition takes as input. -/
def interpretChoiceMatch (choices : List String) (respText : String) : String :=
  let result := stripQuotes (strTrim respText)
  if choices.contains result || result == "UNCLEAR" then result
  else
    match choices.find? (fun c => strIncludes result c) with
    | some c => c
    | none => "UNCLEAR"

/-- C3: for every list of choice strings and every raw model answer (and
hence for every transcript and scene text, which do not influence the
matching stage), the Choice Interpreter returns either literally an
element of the choice list or the sentinel string UNCLEAR. -/
theorem interpret_choice_in_choices_or_unclear
    (choices : List String) (respText : String) :
    interpretChoiceMatch choices respText ∈ choices ∨
      interpretChoiceMatch choices respText = "UNCLEAR" := by
  unfold interpretChoiceMatch
  by_cases h : (choices.contains (stripQuotes (strTrim respText))
      || stripQuotes (strTrim respText) == "UNCLEAR") = true
  · rw [if_pos h]
    rcases Bool.or_eq_true_iff.mp h with h1 | h1
    · exact Or.inl (List.mem_of_elem_eq_true h1)
    · exact Or.inr (eq_of_beq h1)
  · rw [if_neg h]
    cases hf : choices.find? (fun c => strIncludes (stripQuotes (strTrim respText)) c) with
    | none => exact Or.inr rfl
    | some c => exact Or.inl (List.mem_of_find?_eq_some hf)

/-- C4: with choices [Open the door, Run away, Wait], the raw answer
`"Run away."` (with quotes and period) yields "Run away", the raw answer
`I think Run away is best` yields "Run away" via the substring fallback,
and the raw answer `climb the wall` yields UNCLEAR. -/
theorem interpret_choice_concrete_cases :
    interpretChoiceMatch ["Open the door", "Run away", "Wait"] "\"Run away.\"" = "Run away" ∧
    interpretChoiceMatch ["Open the door", "Run away", "Wait"] "I think Run away is best" = "Run away" ∧
    interpretChoiceMatch ["Open the door", "Run away", "Wait"] "climb the wall" = "UNCLEAR" := by
  refine ⟨?_, ?_, ?_⟩ <;> decide

/-- If position `i` is the first position of the list satisfying `p`,
then `find?` returns the element at `i`. -/
theorem find_first_position {α : Type} (p : α → Bool) :
    ∀ (l : List α) (i : Nat) (hi : i < l.length),
      p (l.get ⟨i, hi⟩) = true →
      (∀ j (hj : j < l.length), j < i → p (l.get ⟨j, hj⟩) = false) →
      l.find? p = some (l.get ⟨i, hi⟩) := by
  intro l
  induction l with
  | nil => intro i hi; exact absurd hi (Nat.not_lt_zero i)
  | cons a rest ih =>
    intro i hi hp hmin
    cases i with
    | zero => simp only [List.get] at hp ⊢; simp [List.find?, hp]
    | succ n =>
      have ha : p a = false := hmin 0 (Nat.succ_pos _) (Nat.succ_pos n)
      simp only [List.find?, ha]
      exact ih n (Nat.lt_of_succ_lt_succ hi) hp
        (fun j hj hlt =>
          hmin (j + 1) (Nat.succ_lt_succ hj) (Nat.succ_lt_succ hlt))

/-- C9 (counterexample): the claim that, for any answer literally
containing two or more distinct choices as substrings, the choice
occurring earliest in the input list is returned, fails when the answer
is itself exactly one of the (later) choices: with choices [a, ab] and
answer ab, both choices occur in the answer, a occurs first in the list,
yet the exact-match stage returns ab. -/
theorem interpret_fallback_order_counterexample :
    interpretChoiceMatch ["a", "ab"] "ab" = "ab" ∧
    strIncludes ("ab") ("a") = true ∧
    strIncludes ("ab") ("ab") = true ∧
    ("a" : String) ≠ "ab" := by
  refine ⟨by decide, by decide, by decide, by decide⟩

/-- C9 (amended): provided the processed answer (trimmed,
quote-stripped) is not itself literally one of the choices and is not
the literal string UNCLEAR, the substring fallback is case-sensitive and
returns the first choice in input-list order that occurs literally in
the answer, and UNCLEAR when no choice occurs in it. -/
theorem interpret_fallback_first_in_order
    (choices : List String) (respText : String)
    (hnm : stripQuotes (strTrim respText) ∉ choices)
    (hnu : stripQuotes (strTrim respText) ≠ "UNCLEAR") :
    (∀ i (hi : i < choices.length),
        strIncludes (stripQuotes (strTrim respText)) (choices.get ⟨i, hi⟩) = true →
        (∀ j (hj : j < choices.length), j < i →
          strIncludes (stripQuotes (strTrim respText)) (choices.get ⟨j, hj⟩) = false) →
        interpretChoiceMatch choices respText = choices.get ⟨i, hi⟩) ∧
    ((∀ c ∈ choices, strIncludes (stripQuotes (strTrim respText)) c = false) →
        interpretChoiceMatch choices respText = "UNCLEAR") := by
  have hcond : ¬ ((choices.contains (stripQuotes (strTrim respText))
      || stripQuotes (strTrim respText) == "UNCLEAR") = true) := by
    intro h
    rcases Bool.or_eq_true_iff.mp h with h1 | h1
    · exact hnm (List.mem_of_elem_eq_true h1)
    · exact hnu (eq_of_beq h1)
  constructor
  · intro i hi hp hmin
    unfold interpretChoiceMatch
    rw [if_neg hcond,
      find_first_position (fun c => strIncludes (stripQuotes (strTrim respText)) c)
        choices i hi hp hmin]
  · intro hall
    unfold interpretChoiceMatch
    rw [if_neg hcond, List.find?_eq_none.mpr (fun c hc => by simp [hall c hc])]

/-- The raw answer used in the witness of the amended C9. -/
def fallbackAnswer : String := "I think Run away is best"

/-- Witness for the amended C9, at the choice list of P6 and the answer
that matches the second choice by containment only. -/
theorem interpret_fallback_first_in_order_witness :
    (stripQuotes (strTrim fallbackAnswer) ∉
      (["Open the door", "Run away", "Wait"] : List String)) ∧
    interpretChoiceMatch ["Open the door", "Run away", "Wait"]
      fallbackAnswer = "Run away" := by
  refine ⟨by decide, ?_⟩
  exact (interpret_fallback_first_in_order ["Open the door", "Run away", "Wait"]
    fallbackAnswer (by decide) (by decide)).1 1 (by decide) (by decide)
    (fun j hj hlt => by
      have hz : j = 0 := Nat.lt_one_iff.mp hlt
      subst hz
      exact (by decide : strIncludes (stripQuotes (strTrim fallbackAnswer))
        ("Open the door") = false))

/-!
Part 2: the Narration Orchestrator of src/components/LiveNarrator.tsx.

The component is single-threaded and event driven: every mutable ref of
the component becomes a field of `Config`, every suspended asynchronous
computation (a pending synthesis call, a pending decode, a playing audio
source awaiting its ended callback, an open recognition session, a
pending interpretation call) becomes an `Item`, and the environment
drives the machine by delivering events (`Ev`).  Each event runs the
corresponding source callback or promise continuation to its next
suspension point, producing the successor `Config` and the list of
observable `Effect`s it emits, in source order.

Platform contract built into the model: an audio source fires its ended
callback only while the callback is attached (the component always sets
`onended = null` before calling `stop()`, in the same synchronous block,
so an explicit stop cannot invoke the handler); a timer callback fires
only while it is the pending timer; recognition callbacks fire only
while attached.  Service-failure rejections of the synthesis and
interpretation calls are outside the claims treated here and are not
modelled; the internal cancellation rejections (the Operation cancelled
paths) are modelled in full.

Modelled from the spec: the translations table (src/lib/translations,
absent from src/) supplies the retry prompt, the give-up prompt and the
stop command word; their wording is immaterial to the claims, so they
appear as the opaque constants below and as the `stopPhrase` field.
-/

/-- The four reported narration states (LiveNarrator.tsx line 8). -/
inductive NarrationState
  | IDLE
  | NARRATING
  | LISTENING
  | PROCESSING
deriving DecidableEq

/-- Observable effects: host callbacks, resource starts and stops,
callback detachments, and outgoing service calls, emitted in the order
the source performs them. -/
inductive Effect
  | stateChange (s : NarrationState)
  | choiceSelected (choice : String)
  | errorCb
  | synthCall (text : String)
  | audioDetach (i : Nat)
  | audioStop (i : Nat)
  | audioStart (i : Nat)
  | timerClear
  | timerSet
  | recogDetachResult (r : Nat)
  | recogDetachError (r : Nat)
  | recogDetachEnd (r : Nat)
  | recogAbort (r : Nat)
  | recogStart (r : Nat)
  | interpretCall (speech : String)
deriving DecidableEq

abbrev Eff := List Effect

/-- Who awaits the promise of startListeningForChoice: the narration
sequence (runNarrationSequence or the skip sequence, whose catch ignores
cancellation messages) or the retry path inside processUserSpeech (whose
catch reports an error when still current and always resets to IDLE). -/
inductive LCaller
  | seq
  | retry
deriving DecidableEq

/-- Which continuation awaits the promise of a narrateText call, i.e.
where the narration was started from.  `seqStory` carries the prompt
text narrated next; the `frozen` fields carry the retryCount value
captured by the closures of the render the operation chain was created
in (see `Config.liveRetry`). -/
inductive NarrCont
  | seqStory (promptText : String) (frozen : Nat)
  | seqPrompt (frozen : Nat)
  | retryNarr (frozen : Nat)
  | giveupNarr
  | clickedNarr
deriving DecidableEq

/-- A suspended asynchronous computation:
synthP  — narrateText awaiting generateSpeech (line 166);
decodeP — narrateText awaiting decodeAudioData (line 169);
playingP — a started audio source awaiting its ended callback (177-189);
session — an open recognition session with its closure-local
          finalTranscript (lines 241-314);
interpP — processUserSpeech awaiting interpretUserChoice (line 205). -/
inductive Item
  | synthP (text : String) (op : String) (k : NarrCont)
  | decodeP (op : String) (k : NarrCont)
  | playingP (src : Nat) (op : String) (k : NarrCont)
  | session (r : Nat) (op : String) (frozen : Nat) (finalTranscript : String) (caller : LCaller)
  | interpP (speech : String) (op : String) (frozen : Nat)
deriving DecidableEq

/-- The mutable state of the component.  `operationId` is
operationIdRef, `narrationState` is narrationStateRef, `audioSource` is
currentAudioSourceRef (sources are numbered), `endedAttached` are the
sources whose onended is still set, `playing` are the started,
not-yet-finished, not-yet-stopped sources, `recogRef` is
speechRecognitionRef, `recogAttached` are the sessions whose callbacks
are still set, `timerFor` is endOfSpeechTimeoutRef (the session whose
stopListeningAndProcess the pending timer would run).  `liveRetry` is
the committed React retryCount state; the in-flight operation chain
reads retryCount through the closures created when the chain began, so
the chain compares against the captured (`frozen`) value, not against
`liveRetry`.  `stopPhrase` is the configured stop command word. -/
structure Config where
  operationId : Option String
  narrationState : NarrationState
  liveRetry : Nat
  audioSource : Option Nat
  endedAttached : List Nat
  playing : List Nat
  recogRef : Option Nat
  recogAttached : List Nat
  timerFor : Option Nat
  nextAudioId : Nat
  nextRecogId : Nat
  items : List Item
  stopPhrase : String
deriving DecidableEq

/-- Modelled from the spec: the retry prompt text (the translation keyed
voiceChoiceUnclear); its wording is immaterial. -/
def unclearText : String := "voiceChoiceUnclear"

/-- Modelled from the spec: the give-up prompt text (the translation
keyed voiceChoiceRetryFail); its wording is immaterial. -/
def retryFailText : String := "voiceChoiceRetryFail"

/-- updateNarrationState (lines 99-102): record and report the state. -/
def updStateF (st : NarrationState) (c : Config) : Config × Eff :=
  ({c with narrationState := st}, [Effect.stateChange st])

/-- stopAllAudio (lines 108-116): when a source is current, first detach
its ended callback, then stop it and drop the reference. -/
def stopAllAudioF (c : Config) : Config × Eff :=
  match c.audioSource with
  | none => (c, [])
  | some i =>
      ({c with audioSource := none,
               endedAttached := c.endedAttached.erase i,
               playing := c.playing.erase i},
       [Effect.audioDetach i, Effect.audioStop i])

/-- cleanupSpeechRecognition (lines 142-155): clear the pending silence
timer, null the three recognition callbacks, abort the session, drop the
reference, and report IDLE — in that order. -/
def cleanupRecogF (c : Config) : Config × Eff :=
  let p1 : Config × Eff :=
    match c.timerFor with
    | some _ => ({c with timerFor := none}, [Effect.timerClear])
    | none => (c, [])
  let p2 : Config × Eff :=
    match p1.1.recogRef with
    | some r =>
        ({p1.1 with recogRef := none, recogAttached := p1.1.recogAttached.erase r},
         [Effect.recogDetachResult r, Effect.recogDetachError r,
          Effect.recogDetachEnd r, Effect.recogAbort r])
    | none => (p1.1, [])
  let p3 := updStateF NarrationState.IDLE p2.1
  (p3.1, p1.2 ++ p2.2 ++ p3.2)

/-- What happens when the promise of a narrateText call rejects with an
Operation cancelled error: the narration-sequence and clicked-choice
catches (lines 333-341, 363-367) recognise the message and do nothing;
the processUserSpeech catch (lines 222-226) reports an error only when
the operation is still current and always resets the reported state to
IDLE. -/
def narrReject (op : String) (k : NarrCont) (c : Config) : Config × Eff :=
  match k with
  | NarrCont.seqStory _ _ => (c, [])
  | NarrCont.seqPrompt _ => (c, [])
  | NarrCont.clickedNarr => (c, [])
  | NarrCont.retryNarr _ =>
      let e := if c.operationId = some op then [Effect.errorCb] else []
      let p := updStateF NarrationState.IDLE c
      (p.1, e ++ p.2)
  | NarrCont.giveupNarr =>
      let e := if c.operationId = some op then [Effect.errorCb] else []
      let p := updStateF NarrationState.IDLE c
      (p.1, e ++ p.2)

/-- narrateText up to its first await (lines 157-166): staleness check,
report NARRATING, stop any current audio, issue the synthesis call. -/
def narrBegin (text : String) (op : String) (k : NarrCont) (c : Config) : Config × Eff :=
  if c.operationId = some op then
    let p1 := updStateF NarrationState.NARRATING c
    let p2 := stopAllAudioF p1.1
    ({p2.1 with items := p2.1.items ++ [Item.synthP text op k]},
     p1.2 ++ p2.2 ++ [Effect.synthCall text])
  else narrReject op k c

/-- startListeningForChoice up to recognition.start() (lines 230-314):
staleness check, cleanup of the previous session, creation of a fresh
session with empty transcript and attached callbacks.  The Bool records
whether a session was started (false models the early rejection). -/
def startListenCore (op : String) (frozen : Nat) (caller : LCaller) (c : Config) :
    Config × Eff × Bool :=
  if c.operationId = some op then
    let p1 := cleanupRecogF c
    let r := p1.1.nextRecogId
    ({p1.1 with nextRecogId := r + 1, recogRef := some r,
                recogAttached := r :: p1.1.recogAttached,
                items := p1.1.items ++ [Item.session r op frozen "" caller]},
     p1.2 ++ [Effect.recogStart r], true)
  else (c, [], false)

/-- What runs when the promise of a narrateText call resolves (natural
end of playback): the story narration continues with the prompt
narration (line 331), the prompt and retry narrations continue with
listening (lines 332, 216), the give-up narration settles to IDLE
(line 219), the clicked-choice narration ends the sub-operation. -/
def narrResolve (op : String) (k : NarrCont) (c : Config) : Config × Eff :=
  match k with
  | NarrCont.seqStory promptText frozen =>
      narrBegin promptText op (NarrCont.seqPrompt frozen) c
  | NarrCont.seqPrompt frozen =>
      let p := startListenCore op frozen LCaller.seq c
      (p.1, p.2.1)
  | NarrCont.retryNarr frozen =>
      let p := startListenCore op frozen LCaller.retry c
      if p.2.2 then (p.1, p.2.1)
      else
        let e := if p.1.operationId = some op then [Effect.errorCb] else []
        let q := updStateF NarrationState.IDLE p.1
        (q.1, p.2.1 ++ e ++ q.2)
  | NarrCont.giveupNarr => updStateF NarrationState.IDLE c
  | NarrCont.clickedNarr => (c, [])

/-- processUserSpeech up to its await of interpretUserChoice
(lines 200-205): staleness check, report PROCESSING, issue the
interpretation call. -/
def processSpeechBegin (speech op : String) (frozen : Nat) (c : Config) : Config × Eff :=
  if c.operationId = some op then
    let p1 := updStateF NarrationState.PROCESSING c
    ({p1.1 with items := p1.1.items ++ [Item.interpP speech op frozen]},
     p1.2 ++ [Effect.interpretCall speech])
  else (c, [])

/-- Look up the open recognition session numbered `r`. -/
def findSession (r : Nat) : List Item → Option (String × Nat × String × LCaller)
  | [] => none
  | Item.session rr op frozen ft caller :: rest =>
      if rr = r then some (op, frozen, ft, caller) else findSession r rest
  | _ :: rest => findSession r rest

/-- Replace the transcript of the recognition session numbered `r`. -/
def replaceSession (r : Nat) (newFt : String) : List Item → List Item
  | [] => []
  | Item.session rr op frozen ft caller :: rest =>
      (if rr = r then Item.session rr op frozen newFt caller
       else Item.session rr op frozen ft caller) :: replaceSession r newFt rest
  | it :: rest => it :: replaceSession r newFt rest

/-- Look up the suspended narration awaiting the ended callback of
source `j`. -/
def findPlaying (j : Nat) : List Item → Option (String × NarrCont)
  | [] => none
  | Item.playingP jj op k :: rest =>
      if jj = j then some (op, k) else findPlaying j rest
  | _ :: rest => findPlaying j rest

/-- stopListeningAndProcess for session `r` (lines 251-269): bail out if
no session is referenced, finalize the closure-local transcript (trim
then lowercase), clean up recognition, then: an empty transcript is
processed as empty speech, a transcript equal to the lowercased stop
phrase resolves the sequence at once, and otherwise the transcript is
processed only when the operation is still current. -/
def stopProcF (r : Nat) (c : Config) : Config × Eff :=
  match findSession r c.items with
  | none => (c, [])
  | some (op, frozen, ft, _caller) =>
      if c.recogRef = none then (c, [])
      else
        let sp := lowerStr (strTrim ft)
        let p1 := cleanupRecogF c
        if sp = "" then
          let p2 := processSpeechBegin "" op frozen p1.1
          (p2.1, p1.2 ++ p2.2)
        else if sp = lowerStr c.stopPhrase then (p1.1, p1.2)
        else if p1.1.operationId = some op then
          let p2 := processSpeechBegin sp op frozen p1.1
          (p2.1, p1.2 ++ p2.2)
        else (p1.1, p1.2)

/-- The message of the internal cancellation rejections, which the
narration-sequence catch recognises with a substring test (line 334). -/
def cancelledMsg : String := "Operation cancelled"

/-- What happens when the promise of startListeningForChoice rejects
with the given error message: the narration-sequence catch reports the
error unless the message marks a cancellation; the processUserSpeech
catch reports it only when still current and always resets to IDLE. -/
def rejectListen (op cause : String) (caller : LCaller) (c : Config) : Config × Eff :=
  match caller with
  | LCaller.seq =>
      if strIncludes cause cancelledMsg then (c, []) else (c, [Effect.errorCb])
  | LCaller.retry =>
      let e := if c.operationId = some op then [Effect.errorCb] else []
      let p := updStateF NarrationState.IDLE c
      (p.1, e ++ p.2)

/-- Events delivered by the environment: host actions (a new story
step, skip, a clicked choice to narrate) and completions of the
suspended asynchronous computations. -/
inductive Ev
  | newStep (id story promptText : String)
  | skip (baseId promptText : String)
  | clicked (id choiceText : String)
  | synthDone (text op : String) (k : NarrCont)
  | decodeDone (op : String) (k : NarrCont)
  | audioEnded (src : Nat)
  | recogStarted (r : Nat)
  | recogResult (r : Nat) (finals interims : List String)
  | recogError (r : Nat) (cause : String)
  | recogEnded (r : Nat)
  | timerFired (r : Nat)
  | interpDone (speech op : String) (frozen : Nat) (result : String)
deriving DecidableEq

/-- The step effect list and successor configuration for one event. -/
def step (c : Config) : Ev → Config × Eff
  | Ev.newStep id story promptText =>
      -- effect cleanup of the previous step (lines 346-351) followed by
      -- the effect body for the new step (lines 320-344)
      let c0 := {c with operationId := none}
      let p1 := stopAllAudioF c0
      let p2 := cleanupRecogF p1.1
      let p3 := updStateF NarrationState.IDLE p2.1
      let frozen := p3.1.liveRetry
      let c4 := {p3.1 with operationId := some id, liveRetry := 0}
      let p5 := narrBegin story id (NarrCont.seqStory promptText frozen) c4
      (p5.1, p1.2 ++ p2.2 ++ p3.2 ++ p5.2)
  | Ev.skip baseId promptText =>
      -- the imperative skip handle (lines 118-139)
      let p1 := stopAllAudioF c
      let op := baseId ++ "-skipped"
      let frozen := p1.1.liveRetry
      let c2 := {p1.1 with operationId := some op}
      let p3 := narrBegin promptText op (NarrCont.seqPrompt frozen) c2
      (p3.1, p1.2 ++ p3.2)
  | Ev.clicked id choiceText =>
      -- the clicked-choice effect (lines 355-369)
      let c1 := {c with operationId := some id}
      let p2 := stopAllAudioF c1
      let p3 := cleanupRecogF p2.1
      let p4 := narrBegin choiceText id NarrCont.clickedNarr p3.1
      (p4.1, p2.2 ++ p3.2 ++ p4.2)
  | Ev.synthDone text op k =>
      -- generateSpeech resolved (lines 166-169)
      if Item.synthP text op k ∈ c.items then
        let c0 := {c with items := c.items.erase (Item.synthP text op k)}
        if c0.operationId = some op then
          ({c0 with items := c0.items ++ [Item.decodeP op k]}, [])
        else narrReject op k c0
      else (c, [])
  | Ev.decodeDone op k =>
      -- decodeAudioData resolved (lines 169-189): create the source,
      -- attach its ended callback, start it, record it as current
      if Item.decodeP op k ∈ c.items then
        let c0 := {c with items := c.items.erase (Item.decodeP op k)}
        if c0.operationId = some op then
          let j := c0.nextAudioId
          ({c0 with nextAudioId := j + 1, audioSource := some j,
                    endedAttached := j :: c0.endedAttached,
                    playing := j :: c0.playing,
                    items := c0.items ++ [Item.playingP j op k]},
           [Effect.audioStart j])
        else narrReject op k c0
      else (c, [])
  | Ev.audioEnded j =>
      -- source j finished playing; its handler (lines 177-186) runs
      -- only while attached
      if j ∈ c.playing then
        let c0 := {c with playing := c.playing.erase j}
        if j ∈ c0.endedAttached then
          let c1 := {c0 with endedAttached := c0.endedAttached.erase j}
          match findPlaying j c1.items with
          | some (op, k) =>
              let c2 := {c1 with items := c1.items.erase (Item.playingP j op k)}
              if c2.audioSource = some j then
                let c3 := {c2 with audioSource := none}
                if c3.operationId = some op then narrResolve op k c3
                else narrReject op k c3
              else (c2, [])
          | none => (c1, [])
        else (c0, [])
      else (c, [])
  | Ev.recogStarted r =>
      -- onstart (lines 271-273)
      if r ∈ c.recogAttached then updStateF NarrationState.LISTENING c else (c, [])
  | Ev.recogResult r finals _interims =>
      -- onresult (lines 275-291): append the final segments to the
      -- closure transcript, ignore interim segments, restart the timer
      if r ∈ c.recogAttached then
        match findSession r c.items with
        | some (_op, _frozen, ft, _caller) =>
            let e1 : Eff :=
              match c.timerFor with
              | some _ => [Effect.timerClear]
              | none => []
            ({c with timerFor := some r,
                     items := replaceSession r (ft ++ joinAll finals) c.items},
             e1 ++ [Effect.timerSet])
        | none => (c, [])
      else (c, [])
  | Ev.recogError r cause =>
      -- onerror (lines 293-300)
      if r ∈ c.recogAttached then
        match findSession r c.items with
        | some (op, _frozen, _ft, caller) =>
            if cause ≠ "aborted" ∧ c.operationId = some op then stopProcF r c
            else rejectListen op cause caller c
        | none => (c, [])
      else (c, [])
  | Ev.recogEnded r =>
      -- onend (lines 302-312)
      if r ∈ c.recogAttached then
        if c.recogRef = some r then
          let c1 := {c with recogRef := none}
          if c1.narrationState = NarrationState.LISTENING then
            updStateF NarrationState.IDLE c1
          else (c1, [])
        else (c, [])
      else (c, [])
  | Ev.timerFired r =>
      -- the 1.2 s silence timer fired (line 290)
      if c.timerFor = some r then stopProcF r {c with timerFor := none} else (c, [])
  | Ev.interpDone speech op frozen result =>
      -- interpretUserChoice resolved (lines 205-221)
      if Item.interpP speech op frozen ∈ c.items then
        let c0 := {c with items := c.items.erase (Item.interpP speech op frozen)}
        if c0.operationId = some op then
          if result ≠ "UNCLEAR" then (c0, [Effect.choiceSelected result])
          else if frozen < 2 then
            narrBegin unclearText op (NarrCont.retryNarr frozen)
              {c0 with liveRetry := c0.liveRetry + 1}
          else narrBegin retryFailText op NarrCont.giveupNarr c0
        else (c0, [])
      else (c, [])

/-- Run a list of events. -/
def run (c : Config) : List Ev → Config
  | [] => c
  | e :: es => run (step c e).1 es

/-- The concatenated effect trace of a list of events. -/
def runTrace (c : Config) : List Ev → Eff
  | [] => []
  | e :: es => (step c e).2 ++ runTrace (step c e).1 es

/-- The freshly mounted, initialized component. -/
def init (phrase : String) : Config :=
  { operationId := none, narrationState := NarrationState.IDLE, liveRetry := 0,
    audioSource := none, endedAttached := [], playing := [], recogRef := none,
    recogAttached := [], timerFor := none, nextAudioId := 0, nextRecogId := 0,
    items := [], stopPhrase := phrase }

/-- An effect is benign when it neither reports a chosen choice, nor
starts an audio or recognition resource, nor issues a synthesis or
interpretation request. -/
def benignEffect : Effect → Bool
  | Effect.choiceSelected _ => false
  | Effect.audioStart _ => false
  | Effect.recogStart _ => false
  | Effect.synthCall _ => false
  | Effect.interpretCall _ => false
  | _ => true

/-- All effects of a trace are benign. -/
def benignEffs (l : Eff) : Bool := l.all benignEffect

theorem benignEffs_append {l1 l2 : Eff} (h1 : benignEffs l1 = true)
    (h2 : benignEffs l2 = true) : benignEffs (l1 ++ l2) = true := by
  unfold benignEffs at h1 h2 ⊢
  rw [List.all_append, h1, h2]
  rfl

theorem not_mem_of_benignEffs {l : Eff} {e : Effect} (h : benignEffs l = true)
    (he : benignEffect e = false) : e ∉ l := by
  intro hm
  have := List.all_eq_true.mp h e hm
  rw [he] at this
  exact Bool.false_ne_true this

theorem benignEffs_updState (st : NarrationState) (c : Config) :
    benignEffs (updStateF st c).2 = true := rfl

theorem benignEffs_stopAll (c : Config) :
    benignEffs (stopAllAudioF c).2 = true := by
  unfold stopAllAudioF
  cases c.audioSource <;> rfl

theorem benignEffs_cleanup (c : Config) :
    benignEffs (cleanupRecogF c).2 = true := by
  unfold cleanupRecogF
  cases ht : c.timerFor <;> cases hr : c.recogRef <;>
    simp only [ht, hr] <;> rfl

theorem benignEffs_narrReject (op : String) (k : NarrCont) (c : Config) :
    benignEffs (narrReject op k c).2 = true := by
  unfold narrReject
  cases k with
  | seqStory p f => rfl
  | seqPrompt f => rfl
  | clickedNarr => rfl
  | retryNarr f =>
      by_cases h : c.operationId = some op
      · simp only [if_pos h]; rfl
      · simp only [if_neg h]; rfl
  | giveupNarr =>
      by_cases h : c.operationId = some op
      · simp only [if_pos h]; rfl
      · simp only [if_neg h]; rfl

theorem benignEffs_rejectListen (op cause : String) (caller : LCaller) (c : Config) :
    benignEffs (rejectListen op cause caller c).2 = true := by
  unfold rejectListen
  cases caller with
  | seq =>
      by_cases h : strIncludes cause cancelledMsg = true
      · simp only [if_pos h]; rfl
      · simp only [if_neg h]; rfl
  | retry =>
      by_cases h : c.operationId = some op
      · simp only [if_pos h]; rfl
      · simp only [if_neg h]; rfl

theorem lowerStr_ne_empty {s : String} (h : s ≠ "") : lowerStr s ≠ "" := by
  intro hc
  apply h
  cases s with
  | mk l =>
    have hd : l.map Char.toLower = [] := congrArg String.data hc
    have hl : l = [] := List.map_eq_nil_iff.mp hd
    subst hl
    rfl

/-- C5: on any listening attempt whose finalized (trimmed, lowercased)
transcript equals the configured stop phrase compared case-insensitively
(with the phrase a nonempty word), the transcript finalization resolves
the sequence without invoking the Choice Interpreter and without
reporting a choice. -/
theorem stop_command_short_circuit (c : Config) (r : Nat) (op : String)
    (frozen : Nat) (ft : String) (caller : LCaller)
    (hs : findSession r c.items = some (op, frozen, ft, caller))
    (hp : c.stopPhrase ≠ "")
    (he : lowerStr (strTrim ft) = lowerStr c.stopPhrase) :
    (∀ s, Effect.interpretCall s ∉ (stopProcF r c).2) ∧
    (∀ s, Effect.choiceSelected s ∉ (stopProcF r c).2) := by
  have hb : benignEffs (stopProcF r c).2 = true := by
    unfold stopProcF
    rw [hs]
    dsimp only
    by_cases hr : c.recogRef = none
    · rw [if_pos hr]; rfl
    · rw [if_neg hr]
      have hsp : ¬ (lowerStr (strTrim ft) = "") := he ▸ lowerStr_ne_empty hp
      rw [if_neg hsp, if_pos he]
      exact benignEffs_cleanup c
  exact ⟨fun s => not_mem_of_benignEffs hb rfl, fun s => not_mem_of_benignEffs hb rfl⟩

/-- The configured stop command word used in witnesses. -/
def stopWord : String := "stop"

/-- Witness for C5: a session whose transcript is the stop word in mixed
case with surrounding whitespace, with stop phrase configured as stop. -/
def c5cfg : Config :=
  { (init stopWord) with
    recogRef := some 0, recogAttached := [0],
    items := [Item.session 0 "A" 0 " Stop " LCaller.seq] }

theorem stop_command_short_circuit_witness :
    findSession 0 c5cfg.items = some ("A", 0, " Stop ", LCaller.seq) ∧
    Effect.interpretCall "" ∉ (stopProcF 0 c5cfg).2 ∧
    Effect.interpretCall "stop" ∉ (stopProcF 0 c5cfg).2 ∧
    Effect.choiceSelected "stop" ∉ (stopProcF 0 c5cfg).2 := by
  refine ⟨by decide, ?_, ?_, ?_⟩
  · exact (stop_command_short_circuit c5cfg 0 "A" 0 " Stop " LCaller.seq
      (by decide) (by decide) (by decide)).1 ""
  · exact (stop_command_short_circuit c5cfg 0 "A" 0 " Stop " LCaller.seq
      (by decide) (by decide) (by decide)).1 "stop"
  · exact (stop_command_short_circuit c5cfg 0 "A" 0 " Stop " LCaller.seq
      (by decide) (by decide) (by decide)).2 "stop"

/-- C7: whenever starting a new recognition session while a previous one
is referenced, the previous session is detached (onresult, onerror,
onend nulled, and the pending silence timer cleared) strictly before its
abort is invoked, and the new session starts only after that. -/
theorem recog_detach_before_abort (c : Config) (op : String) (frozen : Nat)
    (caller : LCaller) (r : Nat)
    (hop : c.operationId = some op) (hr : c.recogRef = some r) :
    (startListenCore op frozen caller c).2.1 =
      (match c.timerFor with
        | some _ => [Effect.timerClear]
        | none => []) ++
      [Effect.recogDetachResult r, Effect.recogDetachError r,
       Effect.recogDetachEnd r, Effect.recogAbort r,
       Effect.stateChange NarrationState.IDLE,
       Effect.recogStart c.nextRecogId] := by
  unfold startListenCore cleanupRecogF updStateF
  rw [if_pos hop]
  cases ht : c.timerFor <;> simp only [ht, hr] <;> rfl

/-- Witness for C7: a configuration with operation A current, session 3
referenced and a pending timer. -/
def c7cfg : Config :=
  { (init stopWord) with
    operationId := some "A", recogRef := some 3,
    recogAttached := [3], timerFor := some 3 }

theorem recog_detach_before_abort_witness :
    c7cfg.operationId = some "A" ∧ c7cfg.recogRef = some 3 ∧
    (startListenCore "A" 0 LCaller.seq c7cfg).2.1 =
      [Effect.timerClear, Effect.recogDetachResult 3, Effect.recogDetachError 3,
       Effect.recogDetachEnd 3, Effect.recogAbort 3,
       Effect.stateChange NarrationState.IDLE, Effect.recogStart 0] := by
  refine ⟨rfl, rfl, ?_⟩
  exact (recog_detach_before_abort c7cfg "A" 0 LCaller.seq 3 rfl rfl).trans (by decide)

theorem strAppend_empty (s : String) : s ++ "" = s := by
  cases s with
  | mk l =>
      show String.mk (l ++ []) = String.mk l
      rw [List.append_nil]

theorem strAppend_assoc (a b c : String) : a ++ b ++ c = a ++ (b ++ c) := by
  cases a with
  | mk la =>
      cases b with
      | mk lb =>
          cases c with
          | mk lc =>
              show String.mk (la ++ lb ++ lc) = String.mk (la ++ (lb ++ lc))
              rw [List.append_assoc]

theorem errorCb_not_mem_cleanup (c : Config) :
    Effect.errorCb ∉ (cleanupRecogF c).2 := by
  unfold cleanupRecogF
  cases ht : c.timerFor <;> cases hr : c.recogRef <;>
    simp only [ht, hr] <;> simp [updStateF]

theorem errorCb_not_mem_processSpeech (sp op : String) (frozen : Nat) (c : Config) :
    Effect.errorCb ∉ (processSpeechBegin sp op frozen c).2 := by
  unfold processSpeechBegin
  by_cases h : c.operationId = some op
  · simp only [if_pos h]; simp [updStateF]
  · simp only [if_neg h]; simp

theorem interpretCall_mem_processSpeech {s sp op : String} {frozen : Nat} {c : Config}
    (h : Effect.interpretCall s ∈ (processSpeechBegin sp op frozen c).2) : s = sp := by
  unfold processSpeechBegin at h
  by_cases hc : c.operationId = some op
  · rw [if_pos hc] at h
    simp [updStateF] at h
    exact h
  · rw [if_neg hc] at h
    simp at h

theorem findSession_replace (r : Nat) (nf : String) :
    ∀ (l : List Item) (op : String) (frozen : Nat) (ft : String) (caller : LCaller),
      findSession r l = some (op, frozen, ft, caller) →
      findSession r (replaceSession r nf l) = some (op, frozen, nf, caller) := by
  intro l
  induction l with
  | nil => intro op frozen ft caller h; simp [findSession] at h
  | cons it rest ih =>
      intro op frozen ft caller h
      cases it with
      | session rr op2 fz2 ft2 cl2 =>
          by_cases hr : rr = r
          · simp only [findSession, if_pos hr] at h
            simp only [replaceSession, if_pos hr, findSession]
            simp only [Option.some.injEq, Prod.mk.injEq] at h
            obtain ⟨h1, h2, _h3, h4⟩ := h
            rw [h1, h2, h4]
          · simp only [findSession, if_neg hr] at h
            simp only [replaceSession, if_neg hr, findSession]
            exact ih op frozen ft caller h
      | synthP t o k =>
          simp only [findSession] at h
          simp only [replaceSession, findSession]
          exact ih op frozen ft caller h
      | decodeP o k =>
          simp only [findSession] at h
          simp only [replaceSession, findSession]
          exact ih op frozen ft caller h
      | playingP j o k =>
          simp only [findSession] at h
          simp only [replaceSession, findSession]
          exact ih op frozen ft caller h
      | interpP sp o fz =>
          simp only [findSession] at h
          simp only [replaceSession, findSession]
          exact ih op frozen ft caller h

/-- The successor configuration of a result event on an attached session. -/
theorem stepRecogResult_eq (c : Config) (r : Nat) (finals ints : List String)
    (op : String) (frozen : Nat) (ft : String) (caller : LCaller)
    (hs : findSession r c.items = some (op, frozen, ft, caller))
    (ha : r ∈ c.recogAttached) :
    (step c (Ev.recogResult r finals ints)).1 =
      {c with timerFor := some r,
              items := replaceSession r (ft ++ joinAll finals) c.items} := by
  simp only [step]
  rw [if_pos ha, hs]

/-- The list of result events of one session, from a list of
(final segments, interim segments) payloads. -/
def resultEvents (r : Nat) (ps : List (List String × List String)) : List Ev :=
  ps.map (fun p => Ev.recogResult r p.1 p.2)

/-- The concatenation of all final segments of a payload list. -/
def finalsOf (ps : List (List String × List String)) : String :=
  joinAll (ps.map (fun p => joinAll p.1))

theorem recogResult_accumulates (r : Nat) :
    ∀ (ps : List (List String × List String)) (c : Config) (op : String)
      (frozen : Nat) (ft : String) (caller : LCaller),
      findSession r c.items = some (op, frozen, ft, caller) →
      r ∈ c.recogAttached →
      findSession r (run c (resultEvents r ps)).items =
          some (op, frozen, ft ++ finalsOf ps, caller) ∧
        r ∈ (run c (resultEvents r ps)).recogAttached ∧
        (ps ≠ [] → (run c (resultEvents r ps)).timerFor = some r) := by
  intro ps
  induction ps with
  | nil =>
      intro c op frozen ft caller hs ha
      refine ⟨?_, ha, fun hne => absurd rfl hne⟩
      rw [show ft ++ finalsOf [] = ft from strAppend_empty ft]
      exact hs
  | cons p rest ih =>
      intro c op frozen ft caller hs ha
      have hstep := stepRecogResult_eq c r p.1 p.2 op frozen ft caller hs ha
      have hrun : run c (resultEvents r (p :: rest)) =
          run (step c (Ev.recogResult r p.1 p.2)).1 (resultEvents r rest) := rfl
      have hs2 : findSession r (step c (Ev.recogResult r p.1 p.2)).1.items =
          some (op, frozen, ft ++ joinAll p.1, caller) := by
        rw [hstep]
        exact findSession_replace r (ft ++ joinAll p.1) c.items op frozen ft caller hs
      have ha2 : r ∈ (step c (Ev.recogResult r p.1 p.2)).1.recogAttached := by
        rw [hstep]; exact ha
      obtain ⟨q1, q2, q3⟩ := ih (step c (Ev.recogResult r p.1 p.2)).1 op frozen
        (ft ++ joinAll p.1) caller hs2 ha2
      refine ⟨?_, by rw [hrun]; exact q2, ?_⟩
      · rw [hrun, q1, strAppend_assoc]
        rfl
      · intro _
        rw [hrun]
        cases hrest : rest with
        | nil =>
            simp only [hrest, resultEvents, List.map_nil, run]
            rw [hstep]
        | cons b l =>
            have := q3 (by simp [hrest])
            rw [hrest] at this
            exact this

/-- C10: across any sequence of recognition result events on an attached
session, the session transcript is exactly the prior transcript followed
by the concatenation of the final-flagged segments in order — interim
segments never enter it (each result event only restarts the silence
timer) — and any transcript handed to the interpretation call by the
finalization step is the whitespace-trimmed, lowercased value of that
accumulated transcript. -/
theorem transcript_is_trimmed_lowered_finals :
    (∀ (ps : List (List String × List String)) (c : Config) (r : Nat)
        (op : String) (frozen : Nat) (ft : String) (caller : LCaller),
        findSession r c.items = some (op, frozen, ft, caller) →
        r ∈ c.recogAttached →
        findSession r (run c (resultEvents r ps)).items =
            some (op, frozen, ft ++ finalsOf ps, caller) ∧
          (ps ≠ [] → (run c (resultEvents r ps)).timerFor = some r)) ∧
    (∀ (c : Config) (r : Nat) (op : String) (frozen : Nat) (ft : String)
        (caller : LCaller) (s : String),
        findSession r c.items = some (op, frozen, ft, caller) →
        Effect.interpretCall s ∈ (stopProcF r c).2 →
        s = lowerStr (strTrim ft)) := by
  constructor
  · intro ps c r op frozen ft caller hs ha
    obtain ⟨q1, _, q3⟩ := recogResult_accumulates r ps c op frozen ft caller hs ha
    exact ⟨q1, q3⟩
  · intro c r op frozen ft caller s hs hmem
    unfold stopProcF at hmem
    rw [hs] at hmem
    dsimp only at hmem
    by_cases hr : c.recogRef = none
    · rw [if_pos hr] at hmem
      simp at hmem
    · rw [if_neg hr] at hmem
      by_cases he : lowerStr (strTrim ft) = ""
      · rw [if_pos he] at hmem
        rcases List.mem_append.mp hmem with h1 | h1
        · exact absurd h1 (not_mem_of_benignEffs (benignEffs_cleanup c) rfl)
        · rw [interpretCall_mem_processSpeech h1, he]
      · rw [if_neg he] at hmem
        by_cases hstop : lowerStr (strTrim ft) = lowerStr c.stopPhrase
        · rw [if_pos hstop] at hmem
          exact absurd hmem (not_mem_of_benignEffs (benignEffs_cleanup c) rfl)
        · rw [if_neg hstop] at hmem
          by_cases hfresh : (cleanupRecogF c).1.operationId = some op
          · rw [if_pos hfresh] at hmem
            rcases List.mem_append.mp hmem with h1 | h1
            · exact absurd h1 (not_mem_of_benignEffs (benignEffs_cleanup c) rfl)
            · exact interpretCall_mem_processSpeech h1
          · rw [if_neg hfresh] at hmem
            exact absurd hmem (not_mem_of_benignEffs (benignEffs_cleanup c) rfl)

/-- Witness for C10: a session accumulating two result events, the
second carrying an interim segment that must not enter the transcript. -/
def c10cfg : Config :=
  { (init stopWord) with
    recogRef := some 2, recogAttached := [2],
    items := [Item.session 2 "A" 0 "" LCaller.seq] }

theorem transcript_is_trimmed_lowered_finals_witness :
    findSession 2 c10cfg.items = some ("A", 0, "", LCaller.seq) ∧
    findSession 2 (run c10cfg (resultEvents 2 [(["Go "], []), (["left"], ["lef"])])).items =
      some ("A", 0, "" ++ finalsOf [(["Go "], []), (["left"], ["lef"])], LCaller.seq) := by
  refine ⟨by decide, ?_⟩
  exact ((transcript_is_trimmed_lowered_finals).1
    [(["Go "], []), (["left"], ["lef"])] c10cfg 2 "A" 0 "" LCaller.seq
    (by decide) (by decide)).1

/-- The run preceding the C8 counterexample: one step narrated, prompt
narrated, listening started, and one final segment recognized. -/
def c8evs : List Ev :=
  [Ev.newStep ("A") ("story") ("prompt"),
   Ev.synthDone ("story") ("A") (NarrCont.seqStory ("prompt") 0),
   Ev.decodeDone ("A") (NarrCont.seqStory ("prompt") 0),
   Ev.audioEnded 0,
   Ev.synthDone ("prompt") ("A") (NarrCont.seqPrompt 0),
   Ev.decodeDone ("A") (NarrCont.seqPrompt 0),
   Ev.audioEnded 1,
   Ev.recogStarted 0,
   Ev.recogResult 0 [("Left")] []]

/-- C8 (counterexample): a recognition error with cause network, arriving
while the operation is current and after a final segment Left has been
recognized, is not treated as an empty final transcript: the
interpretation call it triggers carries the accumulated transcript
(lowercased left), not the empty string. -/
theorem recog_error_not_empty_transcript_counterexample :
    (findSession 0 (run (init stopWord) c8evs).items).map (fun q => q.2.2.1) =
      some "Left" ∧
    Effect.interpretCall "left" ∈
      (step (run (init stopWord) c8evs) (Ev.recogError 0 ("network"))).2 ∧
    Effect.interpretCall "" ∉
      (step (run (init stopWord) c8evs) (Ev.recogError 0 ("network"))).2 ∧
    Effect.errorCb ∉
      (step (run (init stopWord) c8evs) (Ev.recogError 0 ("network"))).2 := by
  refine ⟨by decide, by decide, by decide, by decide⟩

theorem errorCb_not_mem_stopProc (r : Nat) (c : Config) :
    Effect.errorCb ∉ (stopProcF r c).2 := by
  unfold stopProcF
  cases hs : findSession r c.items with
  | none => simp
  | some q =>
      obtain ⟨op, frozen, ft, caller⟩ := q
      dsimp only
      by_cases hr : c.recogRef = none
      · rw [if_pos hr]; simp
      · rw [if_neg hr]
        by_cases he : lowerStr (strTrim ft) = ""
        · rw [if_pos he]
          intro hmem
          rcases List.mem_append.mp hmem with h1 | h1
          · exact errorCb_not_mem_cleanup c h1
          · exact errorCb_not_mem_processSpeech _ _ _ _ h1
        · rw [if_neg he]
          by_cases hstop : lowerStr (strTrim ft) = lowerStr c.stopPhrase
          · rw [if_pos hstop]; exact errorCb_not_mem_cleanup c
          · rw [if_neg hstop]
            by_cases hfresh : (cleanupRecogF c).1.operationId = some op
            · rw [if_pos hfresh]
              intro hmem
              rcases List.mem_append.mp hmem with h1 | h1
              · exact errorCb_not_mem_cleanup c h1
              · exact errorCb_not_mem_processSpeech _ _ _ _ h1
            · rw [if_neg hfresh]; exact errorCb_not_mem_cleanup c

/-- C8 (amended): a recognition error on an attached session whose cause
is not aborted, while the session operation is still current, runs
exactly the transcript-finalization step (finalizing whatever transcript
has accumulated so far, the empty one included) and never invokes the
host error callback; an error event on a detached session — which is the
only way a programmatic abort can be observed, since callbacks are
detached before abort is called — has no effect at all. -/
theorem recog_error_amended :
    (∀ (c : Config) (r : Nat) (op : String) (frozen : Nat) (ft : String)
        (caller : LCaller) (cause : String),
        findSession r c.items = some (op, frozen, ft, caller) →
        r ∈ c.recogAttached →
        cause ≠ "aborted" →
        c.operationId = some op →
        step c (Ev.recogError r cause) = stopProcF r c ∧
          Effect.errorCb ∉ (stopProcF r c).2) ∧
    (∀ (c : Config) (r : Nat) (cause : String),
        r ∉ c.recogAttached →
        step c (Ev.recogError r cause) = (c, [])) := by
  constructor
  · intro c r op frozen ft caller cause hs ha hc hop
    constructor
    · simp only [step]
      rw [if_pos ha, hs]
      dsimp only
      rw [if_pos ⟨hc, hop⟩]
    · exact errorCb_not_mem_stopProc r c
  · intro c r cause ha
    simp only [step]
    rw [if_neg ha]

/-- Witness for the amended C8: an attached session with a pending
transcript hit by a network error, and a detached session number. -/
def c8wcfg : Config :=
  { (init stopWord) with
    operationId := some "B", recogRef := some 1, recogAttached := [1],
    items := [Item.session 1 "B" 0 "hello" LCaller.seq] }

theorem recog_error_amended_witness :
    (findSession 1 c8wcfg.items = some ("B", 0, "hello", LCaller.seq) ∧
      step c8wcfg (Ev.recogError 1 ("network")) = stopProcF 1 c8wcfg ∧
      Effect.errorCb ∉ (stopProcF 1 c8wcfg).2) ∧
    step c8wcfg (Ev.recogError 2 ("network")) = (c8wcfg, []) := by
  constructor
  · refine ⟨by decide, ?_, ?_⟩
    · exact ((recog_error_amended).1 c8wcfg 1 "B" 0 "hello" LCaller.seq "network"
        (by decide) (by decide) (by decide) (by decide)).1
    · exact ((recog_error_amended).1 c8wcfg 1 "B" 0 "hello" LCaller.seq "network"
        (by decide) (by decide) (by decide) (by decide)).2
  · exact (recog_error_amended).2 c8wcfg 2 "network" (by decide)

/-- The identifier captured at schedule time by the operation whose
asynchronous step the event resolves (none for host actions). -/
def resolvedOp (c : Config) : Ev → Option String
  | Ev.newStep _ _ _ => none
  | Ev.skip _ _ => none
  | Ev.clicked _ _ => none
  | Ev.synthDone _ op _ => some op
  | Ev.decodeDone op _ => some op
  | Ev.audioEnded j => (findPlaying j c.items).map (fun q => q.1)
  | Ev.recogStarted r => (findSession r c.items).map (fun q => q.1)
  | Ev.recogResult r _ _ => (findSession r c.items).map (fun q => q.1)
  | Ev.recogError r _ => (findSession r c.items).map (fun q => q.1)
  | Ev.recogEnded r => (findSession r c.items).map (fun q => q.1)
  | Ev.timerFired r => (findSession r c.items).map (fun q => q.1)
  | Ev.interpDone _ op _ _ => some op

theorem cleanup_operationId (c : Config) :
    (cleanupRecogF c).1.operationId = c.operationId := by
  unfold cleanupRecogF updStateF
  cases ht : c.timerFor <;> cases hr : c.recogRef <;> simp only [ht, hr]

theorem benignEffs_stopProc_stale (r : Nat) (c : Config) (op : String)
    (frozen : Nat) (ft : String) (caller : LCaller)
    (hs : findSession r c.items = some (op, frozen, ft, caller))
    (hst : ¬ (c.operationId = some op)) :
    benignEffs (stopProcF r c).2 = true := by
  unfold stopProcF
  rw [hs]
  dsimp only
  by_cases hr : c.recogRef = none
  · rw [if_pos hr]; rfl
  · rw [if_neg hr]
    have hcop : ¬ ((cleanupRecogF c).1.operationId = some op) := by
      rw [cleanup_operationId]; exact hst
    by_cases he : lowerStr (strTrim ft) = ""
    · rw [if_pos he]
      refine benignEffs_append (benignEffs_cleanup c) ?_
      unfold processSpeechBegin
      rw [if_neg hcop]
      rfl
    · rw [if_neg he]
      by_cases hstop : lowerStr (strTrim ft) = lowerStr c.stopPhrase
      · rw [if_pos hstop]; exact benignEffs_cleanup c
      · rw [if_neg hstop]
        rw [if_neg hcop]
        exact benignEffs_cleanup c

/-- C1 (amended): when an event resolves an asynchronous step of an
operation that is no longer current, the step emits only benign effects:
it never invokes the choice-selected callback, never starts an audio
source or a recognition session, and never issues a synthesis or
interpretation request.  (Per the counterexample, a stale resolution can
still tear resources down and reset the reported narration state to
IDLE, so the original claim that it changes no shared state and does not
change the reported state does not hold.) -/
theorem stale_resolution_benign (c : Config) (e : Ev) (op : String)
    (hro : resolvedOp c e = some op)
    (hst : c.operationId ≠ some op) :
    benignEffs (step c e).2 = true := by
  cases e with
  | newStep id story promptText => simp [resolvedOp] at hro
  | skip baseId promptText => simp [resolvedOp] at hro
  | clicked id choiceText => simp [resolvedOp] at hro
  | synthDone text op2 k =>
      have hop : op2 = op := by simpa [resolvedOp] using hro
      subst hop
      simp only [step]
      by_cases hm : Item.synthP text op2 k ∈ c.items
      · rw [if_pos hm]
        rw [if_neg hst]
        exact benignEffs_narrReject op2 k _
      · rw [if_neg hm]; rfl
  | decodeDone op2 k =>
      have hop : op2 = op := by simpa [resolvedOp] using hro
      subst hop
      simp only [step]
      by_cases hm : Item.decodeP op2 k ∈ c.items
      · rw [if_pos hm]
        rw [if_neg hst]
        exact benignEffs_narrReject op2 k _
      · rw [if_neg hm]; rfl
  | audioEnded j =>
      simp only [step]
      by_cases hp : j ∈ c.playing
      · rw [if_pos hp]
        by_cases hatt : j ∈ c.endedAttached
        · rw [if_pos hatt]
          cases hfp : findPlaying j c.items with
          | none => rfl
          | some q =>
              obtain ⟨op2, k⟩ := q
              have hop : op2 = op := by
                simp only [resolvedOp, hfp, Option.map_some'] at hro
                exact Option.some.inj hro
              subst hop
              dsimp only
              by_cases has : c.audioSource = some j
              · rw [if_pos has]
                rw [if_neg hst]
                exact benignEffs_narrReject op2 k _
              · rw [if_neg has]; rfl
        · rw [if_neg hatt]; rfl
      · rw [if_neg hp]; rfl
  | recogStarted r =>
      simp only [step]
      by_cases hatt : r ∈ c.recogAttached
      · rw [if_pos hatt]; rfl
      · rw [if_neg hatt]; rfl
  | recogResult r finals ints =>
      simp only [step]
      by_cases hatt : r ∈ c.recogAttached
      · rw [if_pos hatt]
        cases hfs : findSession r c.items with
        | none => rfl
        | some q =>
            obtain ⟨op2, fz2, ft2, cl2⟩ := q
            dsimp only
            cases ht : c.timerFor <;> rfl
      · rw [if_neg hatt]; rfl
  | recogError r cause =>
      simp only [step]
      by_cases hatt : r ∈ c.recogAttached
      · rw [if_pos hatt]
        cases hfs : findSession r c.items with
        | none => rfl
        | some q =>
            obtain ⟨op2, fz2, ft2, cl2⟩ := q
            have hop : op2 = op := by
              simp only [resolvedOp, hfs, Option.map_some'] at hro
              exact Option.some.inj hro
            subst hop
            dsimp only
            have hcond : ¬ (cause ≠ "aborted" ∧ c.operationId = some op2) :=
              fun hand => hst hand.2
            rw [if_neg hcond]
            exact benignEffs_rejectListen op2 cause cl2 c
      · rw [if_neg hatt]; rfl
  | recogEnded r =>
      simp only [step]
      by_cases hatt : r ∈ c.recogAttached
      · rw [if_pos hatt]
        by_cases hrr : c.recogRef = some r
        · rw [if_pos hrr]
          dsimp only
          by_cases hls : c.narrationState = NarrationState.LISTENING
          · rw [if_pos hls]; rfl
          · rw [if_neg hls]; rfl
        · rw [if_neg hrr]; rfl
      · rw [if_neg hatt]; rfl
  | timerFired r =>
      simp only [step]
      by_cases ht : c.timerFor = some r
      · rw [if_pos ht]
        cases hfs : findSession r c.items with
        | none =>
            simp only [resolvedOp, hfs] at hro
            simp at hro
        | some q =>
            obtain ⟨op2, fz2, ft2, cl2⟩ := q
            have hop : op2 = op := by
              simp only [resolvedOp, hfs, Option.map_some'] at hro
              exact Option.some.inj hro
            subst hop
            exact benignEffs_stopProc_stale r _ op2 fz2 ft2 cl2 hfs hst
      · rw [if_neg ht]; rfl
  | interpDone speech op2 frozen result =>
      have hop : op2 = op := by simpa [resolvedOp] using hro
      subst hop
      simp only [step]
      by_cases hm : Item.interpP speech op2 frozen ∈ c.items
      · rw [if_pos hm]
        rw [if_neg hst]
        rfl
      · rw [if_neg hm]; rfl

/-- Witness for the amended C1: an interpretation of operation A
resolving after operation B became current. -/
def c1wcfg : Config :=
  { (init stopWord) with
    operationId := some "B", items := [Item.interpP "x" "A" 0] }

theorem stale_resolution_benign_witness :
    resolvedOp c1wcfg (Ev.interpDone ("x") ("A") 0 ("UNCLEAR")) = some "A" ∧
    c1wcfg.operationId ≠ some "A" ∧
    benignEffs (step c1wcfg (Ev.interpDone ("x") ("A") 0 ("UNCLEAR"))).2 = true := by
  refine ⟨by decide, by decide, ?_⟩
  exact stale_resolution_benign c1wcfg (Ev.interpDone ("x") ("A") 0 ("UNCLEAR")) "A"
    (by decide) (by decide)

/-- The run preceding the C1 counterexample: operation A narrates and
starts listening, a final segment arrives, and then skip supersedes A
with operation A-skipped while the silence timer of the A session is
still pending (skip stops audio but does not tear down recognition). -/
def c1evs : List Ev :=
  [Ev.newStep ("A") ("story") ("prompt"),
   Ev.synthDone ("story") ("A") (NarrCont.seqStory ("prompt") 0),
   Ev.decodeDone ("A") (NarrCont.seqStory ("prompt") 0),
   Ev.audioEnded 0,
   Ev.synthDone ("prompt") ("A") (NarrCont.seqPrompt 0),
   Ev.decodeDone ("A") (NarrCont.seqPrompt 0),
   Ev.audioEnded 1,
   Ev.recogStarted 0,
   Ev.recogResult 0 [("left")] [],
   Ev.skip ("A") ("prompt2")]

/-- C1 (counterexample): after operation A is superseded by operation
A-skipped (whose narration is in flight and has reported NARRATING), the
resolution of A's pending transcript finalization — one of the async
calls named by the claim — still changes the reported narration state,
emitting IDLE and overwriting the state reported by the current
operation, contradicting the claim that a superseded resolution does not
change the reported narration state. -/
theorem stale_finalization_changes_state_counterexample :
    (run (init stopWord) c1evs).operationId = some "A-skipped" ∧
    resolvedOp (run (init stopWord) c1evs) (Ev.timerFired 0) = some "A" ∧
    some "A" ≠ (run (init stopWord) c1evs).operationId ∧
    (run (init stopWord) c1evs).narrationState = NarrationState.NARRATING ∧
    Effect.stateChange NarrationState.IDLE ∈
      (step (run (init stopWord) c1evs) (Ev.timerFired 0)).2 ∧
    (step (run (init stopWord) c1evs) (Ev.timerFired 0)).1.narrationState =
      NarrationState.IDLE := by
  refine ⟨by decide, by decide, by decide, by decide, by decide, by decide⟩

/-- One full unclear round of operation A: listening starts on session
`r`, a transcript arrives, the silence timer finalizes it, the
Interpreter answers UNCLEAR, and the retry narration (source `aid`)
plays to completion, which starts the next listening attempt.  The
frozen retryCount of the chain is 0 throughout: the closures created at
operation start keep the retryCount value of that render, so the guard
retryCount lt 2 compares 0 on every round even though the committed
state increments. -/
def unclearRound (r aid : Nat) : List Ev :=
  [Ev.recogStarted r,
   Ev.recogResult r [("banana")] [],
   Ev.timerFired r,
   Ev.interpDone ("banana") ("A") 0 ("UNCLEAR"),
   Ev.synthDone unclearText ("A") (NarrCont.retryNarr 0),
   Ev.decodeDone ("A") (NarrCont.retryNarr 0),
   Ev.audioEnded aid]

/-- A run of operation A in which the Interpreter answers UNCLEAR on
every listening attempt: story and prompt narrated, then three full
unclear rounds. -/
def c2evs : List Ev :=
  [Ev.newStep ("A") ("story") ("prompt"),
   Ev.synthDone ("story") ("A") (NarrCont.seqStory ("prompt") 0),
   Ev.decodeDone ("A") (NarrCont.seqStory ("prompt") 0),
   Ev.audioEnded 0,
   Ev.synthDone ("prompt") ("A") (NarrCont.seqPrompt 0),
   Ev.decodeDone ("A") (NarrCont.seqPrompt 0),
   Ev.audioEnded 1] ++ unclearRound 0 2 ++ unclearRound 1 3 ++ unclearRound 2 4

/-- Recognition-session starts in a trace. -/
def isRecogStartEff : Effect → Bool
  | Effect.recogStart _ => true
  | _ => false

/-- Choice reports in a trace. -/
def isChoiceEff : Effect → Bool
  | Effect.choiceSelected _ => true
  | _ => false

/-- C2 (code bug): with the Interpreter answering UNCLEAR on every
attempt of one operation, the give-up path is never entered: after the
third unclear interpretation the Orchestrator starts a fourth listening
attempt (four recognition starts in the trace), the give-up narration is
never synthesized, no choice is reported — while the committed
retryCount state has reached 3, the retry guard keeps comparing the
value 0 captured by the operation chain closures, so the bound of 2
retries the code plainly intends (retryCount lt 2) is never enforced. -/
theorem retry_bound_failing_run :
    ((runTrace (init stopWord) c2evs).filter isRecogStartEff).length = 4 ∧
    Effect.synthCall retryFailText ∉ runTrace (init stopWord) c2evs ∧
    (runTrace (init stopWord) c2evs).all (fun e => !(isChoiceEff e)) = true ∧
    (run (init stopWord) c2evs).liveRetry = 3 := by
  refine ⟨by decide, by decide, by decide, by decide⟩

/-- The operation identifier of a pending narration stage (a pending
synthesis or a pending decode); other items are not narration stages. -/
def itemNarrOp : Item → Option String
  | Item.synthP _ op _ => some op
  | Item.decodeP op _ => some op
  | _ => none

/-- The operations of the in-flight narration stages of a configuration. -/
def narrOps (c : Config) : List String := c.items.filterMap itemNarrOp

/-- Boolean pairwise distinctness. -/
def distinctB : List String → Bool
  | [] => true
  | x :: xs => !(xs.contains x) && distinctB xs

theorem distinctB_iff_nodup (l : List String) : distinctB l = true ↔ l.Nodup := by
  induction l with
  | nil => simp [distinctB]
  | cons x xs ih =>
      simp only [distinctB, Bool.and_eq_true, Bool.not_eq_true', List.nodup_cons]
      constructor
      · rintro ⟨h1, h2⟩
        refine ⟨fun hm => ?_, ih.mp h2⟩
        have h1t : xs.contains x = true := List.elem_iff.mpr hm
        rw [h1] at h1t
        exact Bool.false_ne_true h1t
      · rintro ⟨h1, h2⟩
        refine ⟨?_, ih.mpr h2⟩
        cases hc : xs.contains x with
        | false => rfl
        | true => exact absurd (List.elem_iff.mp hc) h1

/-- A run is admissible for the single-active-audio property when, at
every configuration a step is taken from, the in-flight narration stages
carry pairwise distinct operation identifiers (the counterexample run
violates this: two narrations of the same skip operation in flight). -/
def okRun (c : Config) : List Ev → Bool
  | [] => true
  | e :: es => distinctB (narrOps c) && okRun (step c e).1 es

/-- The audio invariant: at most one source is playing, any playing
source is the current one, and while a narration stage of the current
operation is pending nothing is playing. -/
def audioInv (c : Config) : Prop :=
  c.playing.length ≤ 1 ∧
  (∀ j ∈ c.playing, c.audioSource = some j) ∧
  (∀ op, c.operationId = some op → op ∈ narrOps c → c.playing = [])

theorem inv_of_playing_nil {c : Config} (h : c.playing = []) : audioInv c :=
  ⟨by rw [h]; exact Nat.zero_le 1,
   fun j hj => absurd (h ▸ hj) (List.not_mem_nil j),
   fun _ _ _ => h⟩

theorem audioInv_congr {c' c : Config} (hp : c'.playing = c.playing)
    (ha : c'.audioSource = c.audioSource) (hi : c'.items = c.items)
    (ho : c'.operationId = c.operationId) (h : audioInv c) : audioInv c' := by
  obtain ⟨h1, h2, h3⟩ := h
  have hn : narrOps c' = narrOps c := by unfold narrOps; rw [hi]
  refine ⟨by rw [hp]; exact h1, ?_, ?_⟩
  · intro j hj
    rw [ha, hp] at *
    exact h2 j (hp ▸ hj)
  · intro op hop hmem
    rw [hp]
    exact h3 op (ho ▸ hop) (hn ▸ hmem)

theorem audioInv_set_items {c : Config} (h : audioInv c) (l : List Item)
    (hsub : ∀ it ∈ l, it ∈ c.items) : audioInv {c with items := l} := by
  obtain ⟨h1, h2, h3⟩ := h
  refine ⟨h1, h2, ?_⟩
  intro op hop hmem
  apply h3 op hop
  unfold narrOps at hmem ⊢
  obtain ⟨x, hx, hfx⟩ := List.mem_filterMap.mp hmem
  exact List.mem_filterMap.mpr ⟨x, hsub x hx, hfx⟩

theorem audioInv_add_nonnarr {c : Config} (h : audioInv c) (it : Item)
    (hnone : itemNarrOp it = none) :
    ∀ (l : List Item), (∀ x ∈ l, x ∈ c.items) →
      audioInv {c with items := l ++ [it]} := by
  intro l hsub
  obtain ⟨h1, h2, h3⟩ := h
  refine ⟨h1, h2, ?_⟩
  intro op hop hmem
  apply h3 op hop
  unfold narrOps at hmem ⊢
  obtain ⟨x, hx, hfx⟩ := List.mem_filterMap.mp hmem
  rcases List.mem_append.mp hx with hx1 | hx1
  · exact List.mem_filterMap.mpr ⟨x, hsub x hx1, hfx⟩
  · have hxit : x = it := by simpa using hx1
    rw [hxit, hnone] at hfx
    exact Option.noConfusion hfx

theorem singleton_of_mem_len_le_one {l : List Nat} {j : Nat}
    (hlen : l.length ≤ 1) (hm : j ∈ l) : l = [j] := by
  cases l with
  | nil => exact absurd hm (List.not_mem_nil j)
  | cons a t =>
      have ht : t = [] := by
        have : t.length = 0 := Nat.le_zero.mp (Nat.le_of_succ_le_succ (by simpa using hlen))
        exact List.length_eq_zero.mp this
      subst ht
      rcases List.mem_singleton.mp hm with h
      rw [h]

theorem stopAll_playing_nil {c : Config} (hlen : c.playing.length ≤ 1)
    (hcur : ∀ j ∈ c.playing, c.audioSource = some j) :
    (stopAllAudioF c).1.playing = [] := by
  unfold stopAllAudioF
  cases hsrc : c.audioSource with
  | none =>
      dsimp only
      apply List.eq_nil_iff_forall_not_mem.mpr
      intro j hj
      have := hcur j hj
      rw [hsrc] at this
      exact Option.noConfusion this
  | some i =>
      dsimp only
      cases hp : c.playing with
      | nil => rfl
      | cons a t =>
          have hsing : c.playing = [a] :=
            singleton_of_mem_len_le_one hlen (by rw [hp]; exact List.mem_cons_self a t)
          have hai : c.audioSource = some a :=
            hcur a (by rw [hp]; exact List.mem_cons_self a t)
          rw [hsrc] at hai
          have : a = i := (Option.some.inj hai).symm
          rw [hp] at hsing
          have ht : t = [] := (List.cons.injEq .. ▸ hsing).2
          rw [ht, this, List.erase_cons_head]

theorem stopAll_fields (c : Config) :
    (stopAllAudioF c).1.items = c.items ∧
    (stopAllAudioF c).1.operationId = c.operationId ∧
    (stopAllAudioF c).1.liveRetry = c.liveRetry := by
  unfold stopAllAudioF
  cases hsrc : c.audioSource <;> exact ⟨rfl, rfl, rfl⟩

theorem cleanup_fields (c : Config) :
    (cleanupRecogF c).1.playing = c.playing ∧
    (cleanupRecogF c).1.audioSource = c.audioSource ∧
    (cleanupRecogF c).1.items = c.items ∧
    (cleanupRecogF c).1.operationId = c.operationId := by
  unfold cleanupRecogF updStateF
  cases ht : c.timerFor <;> cases hr : c.recogRef <;> simp [ht, hr]

theorem audioInv_cleanup {c : Config} (h : audioInv c) :
    audioInv (cleanupRecogF c).1 := by
  obtain ⟨f1, f2, f3, f4⟩ := cleanup_fields c
  exact audioInv_congr f1 f2 f3 f4 h

theorem narrReject_fields (op : String) (k : NarrCont) (c : Config) :
    (narrReject op k c).1.playing = c.playing ∧
    (narrReject op k c).1.audioSource = c.audioSource ∧
    (narrReject op k c).1.items = c.items ∧
    (narrReject op k c).1.operationId = c.operationId := by
  unfold narrReject updStateF
  cases k with
  | seqStory p f => exact ⟨rfl, rfl, rfl, rfl⟩
  | seqPrompt f => exact ⟨rfl, rfl, rfl, rfl⟩
  | clickedNarr => exact ⟨rfl, rfl, rfl, rfl⟩
  | retryNarr f => exact ⟨rfl, rfl, rfl, rfl⟩
  | giveupNarr => exact ⟨rfl, rfl, rfl, rfl⟩

theorem audioInv_narrReject {op : String} {k : NarrCont} {c : Config}
    (h : audioInv c) : audioInv (narrReject op k c).1 := by
  obtain ⟨f1, f2, f3, f4⟩ := narrReject_fields op k c
  exact audioInv_congr f1 f2 f3 f4 h

theorem audioInv_narrBegin {text op : String} {k : NarrCont} {c : Config}
    (h : audioInv c) : audioInv (narrBegin text op k c).1 := by
  unfold narrBegin
  by_cases hop : c.operationId = some op
  · rw [if_pos hop]
    apply inv_of_playing_nil
    show (stopAllAudioF (updStateF NarrationState.NARRATING c).1).1.playing = []
    exact stopAll_playing_nil h.1 h.2.1
  · rw [if_neg hop]
    exact audioInv_narrReject h

theorem audioInv_startListen {op : String} {frozen : Nat} {caller : LCaller}
    {c : Config} (h : audioInv c) :
    audioInv (startListenCore op frozen caller c).1 := by
  unfold startListenCore
  by_cases hop : c.operationId = some op
  · rw [if_pos hop]
    dsimp only
    obtain ⟨f1, f2, f3, f4⟩ := cleanup_fields c
    refine audioInv_congr (c := {c with items := (cleanupRecogF c).1.items ++
      [Item.session (cleanupRecogF c).1.nextRecogId op frozen "" caller]})
      f1 f2 rfl f4 ?_
    rw [f3]
    exact audioInv_add_nonnarr h
      (Item.session (cleanupRecogF c).1.nextRecogId op frozen "" caller) rfl
      c.items (fun x hx => hx)
  · rw [if_neg hop]
    exact h

theorem audioInv_processSpeech {sp op : String} {frozen : Nat} {c : Config}
    (h : audioInv c) : audioInv (processSpeechBegin sp op frozen c).1 := by
  unfold processSpeechBegin
  by_cases hop : c.operationId = some op
  · rw [if_pos hop]
    dsimp only
    refine audioInv_congr (c := {c with items := c.items ++
      [Item.interpP sp op frozen]}) rfl rfl ?_ rfl ?_
    · rfl
    · exact audioInv_add_nonnarr h (Item.interpP sp op frozen) rfl
        c.items (fun x hx => hx)
  · rw [if_neg hop]
    exact h

theorem audioInv_stopProc {r : Nat} {c : Config} (h : audioInv c) :
    audioInv (stopProcF r c).1 := by
  unfold stopProcF
  cases hs : findSession r c.items with
  | none => exact h
  | some q =>
      obtain ⟨op, frozen, ft, caller⟩ := q
      dsimp only
      by_cases hr : c.recogRef = none
      · rw [if_pos hr]; exact h
      · rw [if_neg hr]
        by_cases he : lowerStr (strTrim ft) = ""
        · rw [if_pos he]
          exact audioInv_processSpeech (audioInv_cleanup h)
        · rw [if_neg he]
          by_cases hstop : lowerStr (strTrim ft) = lowerStr c.stopPhrase
          · rw [if_pos hstop]; exact audioInv_cleanup h
          · rw [if_neg hstop]
            by_cases hfresh : (cleanupRecogF c).1.operationId = some op
            · rw [if_pos hfresh]
              exact audioInv_processSpeech (audioInv_cleanup h)
            · rw [if_neg hfresh]
              exact audioInv_cleanup h

theorem audioInv_narrResolve {op : String} {k : NarrCont} {c : Config}
    (h : audioInv c) : audioInv (narrResolve op k c).1 := by
  unfold narrResolve
  cases k with
  | seqStory promptText frozen => exact audioInv_narrBegin h
  | seqPrompt frozen => exact audioInv_startListen h
  | retryNarr frozen =>
      dsimp only
      by_cases hb : (startListenCore op frozen LCaller.retry c).2.2 = true
      · rw [if_pos hb]
        exact audioInv_startListen h
      · rw [if_neg hb]
        exact audioInv_congr rfl rfl rfl rfl (audioInv_startListen h)
  | giveupNarr => exact audioInv_congr rfl rfl rfl rfl h
  | clickedNarr => exact h

theorem narrOps_replaceSession (r : Nat) (nf : String) :
    ∀ (l : List Item), (replaceSession r nf l).filterMap itemNarrOp =
      l.filterMap itemNarrOp := by
  intro l
  induction l with
  | nil => rfl
  | cons it rest ih =>
      cases it with
      | session rr op2 fz2 ft2 cl2 =>
          by_cases hr : rr = r
          · simp only [replaceSession, if_pos hr, List.filterMap_cons]
            exact ih
          · simp only [replaceSession, if_neg hr, List.filterMap_cons]
            exact ih
      | synthP t o k => simp only [replaceSession, List.filterMap_cons, itemNarrOp, ih]
      | decodeP o k => simp only [replaceSession, List.filterMap_cons, itemNarrOp, ih]
      | playingP j o k => simp only [replaceSession, List.filterMap_cons, itemNarrOp, ih]
      | interpP sp o fz => simp only [replaceSession, List.filterMap_cons, itemNarrOp, ih]

/-- Two distinct in-flight narration stages cannot carry the same
operation when the narration operations are pairwise distinct. -/
theorem no_second_narr {c : Config} (hdis : distinctB (narrOps c) = true)
    {a x : Item} {op : String} (ha : a ∈ c.items) (hfa : itemNarrOp a = some op)
    (hx : x ∈ c.items.erase a) (hfx : itemNarrOp x = some op) : False := by
  have hperm : List.Perm c.items (a :: c.items.erase a) := List.perm_cons_erase ha
  have hnodup : (narrOps c).Nodup := (distinctB_iff_nodup _).mp hdis
  have h2 : List.Perm (narrOps c) ((a :: c.items.erase a).filterMap itemNarrOp) :=
    hperm.filterMap itemNarrOp
  rw [List.filterMap_cons, hfa] at h2
  have h3 : (op :: (c.items.erase a).filterMap itemNarrOp).Nodup := h2.nodup hnodup
  exact (List.nodup_cons.mp h3).1 (List.mem_filterMap.mpr ⟨x, hx, hfx⟩)

theorem audioInv_rejectListen {op cause : String} {caller : LCaller} {c : Config}
    (h : audioInv c) : audioInv (rejectListen op cause caller c).1 := by
  unfold rejectListen
  cases caller with
  | seq =>
      by_cases hs : strIncludes cause cancelledMsg = true
      · rw [if_pos hs]; exact h
      · rw [if_neg hs]; exact h
  | retry => exact audioInv_congr rfl rfl rfl rfl h

theorem audioInv_replace {c : Config} (h : audioInv c) (r : Nat) (nf : String)
    (tf : Option Nat) :
    audioInv {c with timerFor := tf, items := replaceSession r nf c.items} := by
  obtain ⟨h1, h2, h3⟩ := h
  refine ⟨h1, h2, ?_⟩
  intro op hop hmem
  apply h3 op hop
  have heq : narrOps {c with timerFor := tf, items := replaceSession r nf c.items} =
      narrOps c := by
    unfold narrOps
    exact narrOps_replaceSession r nf c.items
  rw [heq] at hmem
  exact hmem

/-- Every event preserves the audio invariant, provided the in-flight
narration stages carry pairwise distinct operations at the step. -/
theorem audioInv_step {c : Config} (e : Ev) (hinv : audioInv c)
    (hdis : distinctB (narrOps c) = true) : audioInv (step c e).1 := by
  cases e with
  | newStep id story promptText =>
      simp only [step]
      apply audioInv_narrBegin
      apply inv_of_playing_nil
      show (cleanupRecogF (stopAllAudioF {c with operationId := none}).1).1.playing = []
      rw [(cleanup_fields _).1]
      exact stopAll_playing_nil hinv.1 hinv.2.1
  | skip baseId promptText =>
      simp only [step]
      apply audioInv_narrBegin
      apply inv_of_playing_nil
      show (stopAllAudioF c).1.playing = []
      exact stopAll_playing_nil hinv.1 hinv.2.1
  | clicked id choiceText =>
      simp only [step]
      apply audioInv_narrBegin
      apply inv_of_playing_nil
      show (cleanupRecogF (stopAllAudioF {c with operationId := some id}).1).1.playing = []
      rw [(cleanup_fields _).1]
      exact stopAll_playing_nil hinv.1 hinv.2.1
  | synthDone text op k =>
      simp only [step]
      by_cases hm : Item.synthP text op k ∈ c.items
      · rw [if_pos hm]
        by_cases hop : c.operationId = some op
        · rw [if_pos hop]
          apply inv_of_playing_nil
          show c.playing = []
          exact hinv.2.2 op hop (List.mem_filterMap.mpr ⟨Item.synthP text op k, hm, rfl⟩)
        · rw [if_neg hop]
          apply audioInv_narrReject
          exact audioInv_set_items hinv _ (fun it h => List.mem_of_mem_erase h)
      · rw [if_neg hm]; exact hinv
  | decodeDone op k =>
      simp only [step]
      by_cases hm : Item.decodeP op k ∈ c.items
      · rw [if_pos hm]
        by_cases hop : c.operationId = some op
        · rw [if_pos hop]
          have hnil : c.playing = [] :=
            hinv.2.2 op hop (List.mem_filterMap.mpr ⟨Item.decodeP op k, hm, rfl⟩)
          refine ⟨?_, ?_, ?_⟩
          · show (c.nextAudioId :: c.playing).length ≤ 1
            rw [hnil]
            exact Nat.le_refl 1
          · intro x hx
            have hx2 : x ∈ c.nextAudioId :: c.playing := hx
            rw [hnil] at hx2
            have hxe : x = c.nextAudioId := List.mem_singleton.mp hx2
            show some c.nextAudioId = some x
            rw [hxe]
          · intro op2 hop2 hmem
            exfalso
            have hop2c : c.operationId = some op2 := hop2
            rw [hop] at hop2c
            have hope : op2 = op := (Option.some.inj hop2c).symm
            have hmem2 : op2 ∈ ((c.items.erase (Item.decodeP op k)) ++
                [Item.playingP c.nextAudioId op k]).filterMap itemNarrOp := hmem
            obtain ⟨x, hx, hfx⟩ := List.mem_filterMap.mp hmem2
            rcases List.mem_append.mp hx with hx1 | hx1
            · exact no_second_narr hdis hm rfl hx1 (hope ▸ hfx)
            · have hxe : x = Item.playingP c.nextAudioId op k := by simpa using hx1
              rw [hxe] at hfx
              exact Option.noConfusion hfx
        · rw [if_neg hop]
          apply audioInv_narrReject
          exact audioInv_set_items hinv _ (fun it h => List.mem_of_mem_erase h)
      · rw [if_neg hm]; exact hinv
  | audioEnded j =>
      simp only [step]
      by_cases hp : j ∈ c.playing
      · rw [if_pos hp]
        have hnil0 : c.playing.erase j = [] := by
          rw [singleton_of_mem_len_le_one hinv.1 hp]
          exact List.erase_cons_head j []
        by_cases hatt : j ∈ c.endedAttached
        · rw [if_pos hatt]
          cases hfp : findPlaying j c.items with
          | none => exact inv_of_playing_nil hnil0
          | some q =>
              obtain ⟨op2, k2⟩ := q
              dsimp only
              by_cases has : c.audioSource = some j
              · rw [if_pos has]
                by_cases hop : c.operationId = some op2
                · rw [if_pos hop]
                  apply audioInv_narrResolve
                  exact inv_of_playing_nil hnil0
                · rw [if_neg hop]
                  apply audioInv_narrReject
                  exact inv_of_playing_nil hnil0
              · rw [if_neg has]
                exact inv_of_playing_nil hnil0
        · rw [if_neg hatt]
          exact inv_of_playing_nil hnil0
      · rw [if_neg hp]; exact hinv
  | recogStarted r =>
      simp only [step]
      by_cases hatt : r ∈ c.recogAttached
      · rw [if_pos hatt]
        exact audioInv_congr rfl rfl rfl rfl hinv
      · rw [if_neg hatt]; exact hinv
  | recogResult r finals ints =>
      simp only [step]
      by_cases hatt : r ∈ c.recogAttached
      · rw [if_pos hatt]
        cases hfs : findSession r c.items with
        | none => exact hinv
        | some q =>
            obtain ⟨op2, fz2, ft2, cl2⟩ := q
            dsimp only
            exact audioInv_replace hinv r (ft2 ++ joinAll finals) (some r)
      · rw [if_neg hatt]; exact hinv
  | recogError r cause =>
      simp only [step]
      by_cases hatt : r ∈ c.recogAttached
      · rw [if_pos hatt]
        cases hfs : findSession r c.items with
        | none => exact hinv
        | some q =>
            obtain ⟨op2, fz2, ft2, cl2⟩ := q
            dsimp only
            by_cases hcond : cause ≠ "aborted" ∧ c.operationId = some op2
            · rw [if_pos hcond]
              exact audioInv_stopProc hinv
            · rw [if_neg hcond]
              exact audioInv_rejectListen hinv
      · rw [if_neg hatt]; exact hinv
  | recogEnded r =>
      simp only [step]
      by_cases hatt : r ∈ c.recogAttached
      · rw [if_pos hatt]
        by_cases hrr : c.recogRef = some r
        · rw [if_pos hrr]
          by_cases hls : c.narrationState = NarrationState.LISTENING
          · rw [if_pos hls]
            exact audioInv_congr rfl rfl rfl rfl hinv
          · rw [if_neg hls]
            exact audioInv_congr rfl rfl rfl rfl hinv
        · rw [if_neg hrr]; exact hinv
      · rw [if_neg hatt]; exact hinv
  | timerFired r =>
      simp only [step]
      by_cases ht : c.timerFor = some r
      · rw [if_pos ht]
        apply audioInv_stopProc
        exact audioInv_congr rfl rfl rfl rfl hinv
      · rw [if_neg ht]; exact hinv
  | interpDone speech op frozen result =>
      simp only [step]
      by_cases hm : Item.interpP speech op frozen ∈ c.items
      · rw [if_pos hm]
        have hinv0 :
            audioInv {c with
              items := c.items.erase (Item.interpP speech op frozen)} :=
          audioInv_set_items hinv _ (fun it h => List.mem_of_mem_erase h)
        by_cases hop : c.operationId = some op
        · rw [if_pos hop]
          by_cases hres : result ≠ "UNCLEAR"
          · rw [if_pos hres]; exact hinv0
          · rw [if_neg hres]
            by_cases hfz : frozen < 2
            · rw [if_pos hfz]
              apply audioInv_narrBegin
              exact audioInv_congr rfl rfl rfl rfl hinv0
            · rw [if_neg hfz]
              exact audioInv_narrBegin hinv0
        · rw [if_neg hop]; exact hinv0
      · rw [if_neg hm]; exact hinv

theorem okRun_audioInv : ∀ (evs : List Ev) (c : Config),
    audioInv c → okRun c evs = true → audioInv (run c evs) := by
  intro evs
  induction evs with
  | nil => intro c h _; exact h
  | cons e es ih =>
      intro c h hok
      simp only [okRun, Bool.and_eq_true] at hok
      exact ih (step c e).1 (audioInv_step e h hok.1) hok.2

/-- The run for the C6 counterexample: skip pressed twice on the same
step, so two narrations with the same operation identifier (X-skipped)
are in flight, and both pass the staleness check and start a source. -/
def c6evs : List Ev :=
  [Ev.newStep ("X") ("story") ("p"),
   Ev.skip ("X") ("p2"),
   Ev.skip ("X") ("p2"),
   Ev.synthDone ("p2") ("X-skipped") (NarrCont.seqPrompt 0),
   Ev.decodeDone ("X-skipped") (NarrCont.seqPrompt 0),
   Ev.synthDone ("p2") ("X-skipped") (NarrCont.seqPrompt 0),
   Ev.decodeDone ("X-skipped") (NarrCont.seqPrompt 0)]

/-- C6 (counterexample): after skip is invoked twice on the same story
step, two audio sources are playing simultaneously and both still have
their ended callbacks attached — the prior source was neither stopped
nor detached when the second one started, so its ended notification is
not suppressed, contradicting the claim. -/
theorem single_active_audio_counterexample :
    (run (init stopWord) c6evs).playing = [1, 0] ∧
    (run (init stopWord) c6evs).playing.length = 2 ∧
    0 ∈ (run (init stopWord) c6evs).endedAttached ∧
    1 ∈ (run (init stopWord) c6evs).endedAttached := by
  refine ⟨by decide, by decide, by decide, by decide⟩

/-- C6 (amended): in every run in which the in-flight narration stages
always carry pairwise distinct operation identifiers (double-skip and
same-identifier re-entry excluded, as the counterexample shows they must
be), at most one audio source is playing at any time; and stopping the
current source always emits the detach of its ended callback strictly
before the stop, leaves no current source, and removes the source from
the attached set, so an explicitly stopped source never fires its ended
notification. -/
theorem single_active_audio_amended :
    (∀ (phrase : String) (evs : List Ev),
        okRun (init phrase) evs = true →
        (run (init phrase) evs).playing.length ≤ 1) ∧
    (∀ (c : Config) (i : Nat), c.audioSource = some i →
        (stopAllAudioF c).2 = [Effect.audioDetach i, Effect.audioStop i] ∧
        (stopAllAudioF c).1.audioSource = none ∧
        (stopAllAudioF c).1.endedAttached = c.endedAttached.erase i) := by
  constructor
  · intro phrase evs hok
    exact (okRun_audioInv evs (init phrase) (inv_of_playing_nil rfl) hok).1
  · intro c i h
    unfold stopAllAudioF
    rw [h]
    exact ⟨rfl, rfl, rfl⟩

/-- The admissible run used in the C6 witness: a single narration chain. -/
def c6wevs : List Ev :=
  [Ev.newStep ("W") ("story") ("prompt"),
   Ev.synthDone ("story") ("W") (NarrCont.seqStory ("prompt") 0),
   Ev.decodeDone ("W") (NarrCont.seqStory ("prompt") 0),
   Ev.audioEnded 0]

/-- A configuration with a current playing source, for the stop half of
the C6 witness. -/
def c6wcfg : Config :=
  { (init stopWord) with
    audioSource := some 5, endedAttached := [5], playing := [5] }

theorem single_active_audio_amended_witness :
    (okRun (init stopWord) c6wevs = true ∧
      (run (init stopWord) c6wevs).playing.length ≤ 1) ∧
    (c6wcfg.audioSource = some 5 ∧
      (stopAllAudioF c6wcfg).2 = [Effect.audioDetach 5, Effect.audioStop 5] ∧
      (stopAllAudioF c6wcfg).1.audioSource = none ∧
      (stopAllAudioF c6wcfg).1.endedAttached = c6wcfg.endedAttached.erase 5) := by
  constructor
  · refine ⟨by decide, ?_⟩
    exact single_active_audio_amended.1 stopWord c6wevs (by decide)
  · refine ⟨rfl, ?_, ?_, ?_⟩
    · exact (single_active_audio_amended.2 c6wcfg 5 rfl).1
    · exact (single_active_audio_amended.2 c6wcfg 5 rfl).2.1
    · exact (single_active_audio_amended.2 c6wcfg 5 rfl).2.2
